import Mathlib

/-!
Verification of the on-chain quoting and simulation engine of an
Ethereum trading server (Uniswap-V2 style constant-product AMM).

The Rust source is shallowly embedded:
U256 values become Nat with explicit overflow conditions against 2 ^ 256
(the ethers U256 type panics on overflowing mul/add of plain operators and
returns None from checked operations), Result values become Except, and
operations that can panic are modelled with an explicit panic constructor.
-/

/-- Decidable equality for Except results, used to evaluate the embedded
functions on concrete inputs. -/
instance {ε α : Type} [DecidableEq ε] [DecidableEq α] : DecidableEq (Except ε α)
  | .error e, .error f =>
    if h : e = f then .isTrue (by rw [h])
    else .isFalse (by intro hc; cases hc; exact h rfl)
  | .error _, .ok _ => .isFalse (by intro hc; cases hc)
  | .ok _, .error _ => .isFalse (by intro hc; cases hc)
  | .ok a, .ok b =>
    if h : a = b then .isTrue (by rw [h])
    else .isFalse (by intro hc; cases hc; exact h rfl)

/-- Bound of the 256-bit unsigned integer type used for all chain amounts. -/
def U256LIMIT : Nat := 2 ^ 256

/-- Error type of the Uniswap client (uniswap.rs, enum UniswapError);
only the constructors reachable from the pure formula code are listed. -/
inductive UniswapError where
  | pairNotFound
  | insufficientLiquidity
  | invalidAmount
deriving DecidableEq, Repr

/-- Embedding of UniswapV2Client::calculate_amount_out (uniswap.rs lines 160-187).
Order of checks follows the source: zero amount, zero reserves, then the
checked multiplications and the checked addition, each mapping an overflow
past 2 ^ 256 to InvalidAmount; the final division truncates (U256 integer
division). -/
def calculate_amount_out (amount_in reserve_in reserve_out : Nat) :
    Except UniswapError Nat :=
  if amount_in = 0 then .error .invalidAmount
  else if reserve_in = 0 ∨ reserve_out = 0 then .error .insufficientLiquidity
  else if U256LIMIT ≤ amount_in * 997 then .error .invalidAmount
  else if U256LIMIT ≤ amount_in * 997 * reserve_out then .error .invalidAmount
  else if U256LIMIT ≤ reserve_in * 1000 then .error .invalidAmount
  else if U256LIMIT ≤ reserve_in * 1000 + amount_in * 997 then .error .invalidAmount
  else .ok (amount_in * 997 * reserve_out / (reserve_in * 1000 + amount_in * 997))

/-- The disjunction of the overflow conditions of the three checked
multiplications and the checked addition inside calculate_amount_out. -/
def amountOutOverflows (amount_in reserve_in reserve_out : Nat) : Prop :=
  U256LIMIT ≤ amount_in * 997 ∨
  U256LIMIT ≤ amount_in * 997 * reserve_out ∨
  U256LIMIT ≤ reserve_in * 1000 ∨
  U256LIMIT ≤ reserve_in * 1000 + amount_in * 997

instance (a ri ro : Nat) : Decidable (amountOutOverflows a ri ro) := by
  unfold amountOutOverflows; infer_instance

/-- Helper for the embedding of UniswapV2Client::calculate_amounts_out
(uniswap.rs lines 254-267): the source pushes one output per reserve pair
into a vector seeded with amount_in, feeding each output into the next hop;
this recursion produces the pushed outputs. -/
def amountsChain (a : Nat) : List (Nat × Nat) → Except UniswapError (List Nat)
  | [] => .ok []
  | (ri, ro) :: rs =>
    match calculate_amount_out a ri ro with
    | .error e => .error e
    | .ok out =>
      match amountsChain out rs with
      | .error e => .error e
      | .ok rest => .ok (out :: rest)

/-- Embedding of UniswapV2Client::calculate_amounts_out: the seed amount_in
followed by the chained hop outputs. -/
def calculate_amounts_out (amount_in : Nat) (reserves : List (Nat × Nat)) :
    Except UniswapError (List Nat) :=
  (amountsChain amount_in reserves).map (fun l => amount_in :: l)

lemma amountsChain_spec (rs : List (Nat × Nat)) :
    ∀ a l, amountsChain a rs = .ok l →
      l.length = rs.length ∧
      ∀ i, i < rs.length →
        ∃ p x y, rs[i]? = some p ∧ (a :: l)[i]? = some x ∧
          (a :: l)[i + 1]? = some y ∧ calculate_amount_out x p.1 p.2 = .ok y := by
  induction rs with
  | nil =>
    intro a l h
    simp only [amountsChain] at h
    cases h
    simp
  | cons p rs ih =>
    intro a l h
    obtain ⟨ri, ro⟩ := p
    rw [amountsChain] at h
    cases hout : calculate_amount_out a ri ro with
    | error e => rw [hout] at h; simp at h
    | ok out =>
      rw [hout] at h
      simp only [] at h
      cases hrest : amountsChain out rs with
      | error e => rw [hrest] at h; simp at h
      | ok rest =>
        rw [hrest] at h
        simp only [Except.ok.injEq] at h
        subst h
        obtain ⟨hlen, hidx⟩ := ih out rest hrest
        constructor
        · simp [hlen]
        · intro i hi
          cases i with
          | zero => exact ⟨(ri, ro), a, out, by simp, by simp, by simp, hout⟩
          | succ j =>
            have hj : j < rs.length := by simpa using hi
            obtain ⟨q, x, y, h1, h2, h3, h4⟩ := hidx j hj
            exact ⟨q, x, y, by simpa using h1, by simpa using h2, by simpa using h3, h4⟩

/-- C1: calculate_amounts_out returns the sequence starting at amount_in in
which each next element is the calculate_amount_out image of the previous one
at the corresponding reserve pair (so the list reads amount_in, hop1, hop2,
...), and on amount_in = 1000 with reserves (10000, 5000), (5000, 20000) it
returns exactly 1000, 453, 1656, with integer truncation at each hop. -/
theorem calculate_amounts_out_chains :
    (∀ a rs l, calculate_amounts_out a rs = .ok l →
      l.length = rs.length + 1 ∧ l[0]? = some a ∧
      ∀ i, i < rs.length →
        ∃ p x y, rs[i]? = some p ∧ l[i]? = some x ∧ l[i + 1]? = some y ∧
          calculate_amount_out x p.1 p.2 = .ok y) ∧
    calculate_amounts_out 1000 [(10000, 5000), (5000, 20000)] =
      .ok [1000, 453, 1656] := by
  constructor
  · intro a rs l h
    rw [calculate_amounts_out] at h
    cases hc : amountsChain a rs with
    | error e => rw [hc] at h; simp [Except.map] at h
    | ok tail =>
      rw [hc] at h
      simp only [Except.map, Except.ok.injEq] at h
      subst h
      obtain ⟨hlen, hidx⟩ := amountsChain_spec rs a tail hc
      exact ⟨by simp [hlen], by simp, hidx⟩
  · decide

/-- Witness for C1: the general chaining part applied at the concrete
multi-hop scenario of the spec. -/
theorem calculate_amounts_out_chains_witness :
    [1000, 453, 1656].length = [((10000 : Nat), (5000 : Nat)), (5000, 20000)].length + 1 ∧
    [1000, 453, 1656][0]? = some 1000 ∧
    ∀ i, i < [((10000 : Nat), (5000 : Nat)), (5000, 20000)].length →
      ∃ p x y, [((10000 : Nat), (5000 : Nat)), (5000, 20000)][i]? = some p ∧
        [1000, 453, 1656][i]? = some x ∧ [1000, 453, 1656][i + 1]? = some y ∧
        calculate_amount_out x p.1 p.2 = .ok y :=
  calculate_amounts_out_chains.1 1000 [(10000, 5000), (5000, 20000)]
    [1000, 453, 1656] (by decide)

/-- C6 counterexample: with reserves (1000, 1) the successful inputs 1 and 2
both yield output 0, so calculate_amount_out is not strictly increasing in
amount_in, and at amount_in = 1 the no-fee constant-product output
1 * 1 / (1000 + 1) is also 0, so the fee output is not strictly below it. -/
theorem amount_out_not_strictly_increasing :
    calculate_amount_out 1 1000 1 = .ok 0 ∧
    calculate_amount_out 2 1000 1 = .ok 0 ∧
    1 * 1 / (1000 + 1) = 0 ∧ ¬ (0 : Nat) < 0 := by
  refine ⟨by decide, by decide, by decide, by decide⟩

lemma nat_div_le_div_cross {n1 d1 n2 d2 : Nat} (hd1 : 0 < d1) (hd2 : 0 < d2)
    (h : n1 * d2 ≤ n2 * d1) : n1 / d1 ≤ n2 / d2 := by
  have h1 : n1 / d1 = n1 * d2 / (d1 * d2) := by
    rw [Nat.mul_div_mul_right _ _ hd2]
  have h2 : n2 / d2 = n2 * d1 / (d1 * d2) := by
    rw [Nat.mul_comm d1 d2, Nat.mul_div_mul_right _ _ hd1]
  rw [h1, h2]
  exact Nat.div_le_div_right h

lemma amount_out_ok_shape {a ri ro o : Nat}
    (h : calculate_amount_out a ri ro = .ok o) :
    0 < a ∧ 0 < ri ∧ 0 < ro ∧ o = a * 997 * ro / (ri * 1000 + a * 997) := by
  rw [calculate_amount_out] at h
  split_ifs at h with h1 h2 h3 h4 h5 h6
  all_goals simp only [Except.ok.injEq] at h
  push_neg at h2
  refine ⟨Nat.pos_of_ne_zero h1, Nat.pos_of_ne_zero h2.1,
    Nat.pos_of_ne_zero h2.2, h.symm⟩

/-- C6 amended: for fixed reserves, calculate_amount_out is monotone
non-decreasing in amount_in over its successful inputs (strictness can fail
because of integer truncation), and its output is at most (again not
strictly below) the no-fee constant-product output floor(amount_in *
reserve_out / (reserve_in + amount_in)). -/
theorem amount_out_monotone_and_fee_bound
    (ri ro a1 a2 o1 o2 : Nat)
    (h1 : calculate_amount_out a1 ri ro = .ok o1)
    (h2 : calculate_amount_out a2 ri ro = .ok o2)
    (hle : a1 ≤ a2) :
    o1 ≤ o2 ∧ o1 ≤ a1 * ro / (ri + a1) := by
  obtain ⟨ha1, hri, hro, ho1⟩ := amount_out_ok_shape h1
  obtain ⟨ha2, -, -, ho2⟩ := amount_out_ok_shape h2
  subst ho1 ho2
  constructor
  · apply nat_div_le_div_cross (by positivity) (by positivity)
    calc a1 * 997 * ro * (ri * 1000 + a2 * 997)
        = 997 * 997 * ro * a1 * a2 + 997000 * ro * ri * a1 := by ring
      _ ≤ 997 * 997 * ro * a1 * a2 + 997000 * ro * ri * a2 := by gcongr
      _ = a2 * 997 * ro * (ri * 1000 + a1 * 997) := by ring
  · apply nat_div_le_div_cross (by positivity) (by positivity)
    calc a1 * 997 * ro * (ri + a1)
        = a1 * ro * ri * 997 + a1 * 997 * ro * a1 := by ring
      _ ≤ a1 * ro * ri * 1000 + a1 * 997 * ro * a1 := by gcongr; omega
      _ = a1 * ro * (ri * 1000 + a1 * 997) := by ring

/-- Witness for C6 amended, at the reserves of the repository test
(1000 in, 10000/10000 reserves give 906; 2000 in gives 1662). -/
theorem amount_out_monotone_and_fee_bound_witness :
    calculate_amount_out 1000 10000 10000 = .ok 906 ∧
    calculate_amount_out 2000 10000 10000 = .ok 1662 ∧
    (906 ≤ 1662 ∧ 906 ≤ 1000 * 10000 / (10000 + 1000)) :=
  ⟨by decide, by decide,
    amount_out_monotone_and_fee_bound 10000 10000 1000 2000 906 1662
      (by decide) (by decide) (by decide)⟩

/-- C7: the full error classification of calculate_amount_out: InvalidAmount
exactly on a zero amount_in or (with usable reserves) an overflowing checked
operation; InsufficientLiquidity exactly on a non-zero amount_in with a zero
reserve (so amount_out 0 with zero reserves is still InvalidAmount, the zero
amount check coming first); success in every remaining case. -/
theorem calculate_amount_out_error_classification :
    ∀ a ri ro : Nat,
      (calculate_amount_out a ri ro = .error .invalidAmount ↔
        a = 0 ∨ (ri ≠ 0 ∧ ro ≠ 0 ∧ amountOutOverflows a ri ro)) ∧
      (calculate_amount_out a ri ro = .error .insufficientLiquidity ↔
        a ≠ 0 ∧ (ri = 0 ∨ ro = 0)) ∧
      (a ≠ 0 → ri ≠ 0 → ro ≠ 0 → ¬ amountOutOverflows a ri ro →
        ∃ n, calculate_amount_out a ri ro = .ok n) := by
  intro a ri ro
  rw [calculate_amount_out]
  unfold amountOutOverflows
  split_ifs with h1 h2 h3 h4 h5 h6 <;> refine ⟨?_, ?_, ?_⟩ <;>
    simp_all <;> tauto

/-- Witness for C7: the success clause applied at the concrete inputs of the
repository fee test, plus a zero-amount evaluation. -/
theorem calculate_amount_out_error_classification_witness :
    (¬ amountOutOverflows 1000 10000 10000 ∧
      ∃ n, calculate_amount_out 1000 10000 10000 = .ok n) ∧
    calculate_amount_out 0 0 0 = .error .invalidAmount :=
  ⟨⟨by decide,
    (calculate_amount_out_error_classification 1000 10000 10000).2.2
      (by decide) (by decide) (by decide) (by decide)⟩,
   ((calculate_amount_out_error_classification 0 0 0).1).2 (Or.inl rfl)⟩

/-- C10: a successful swap output is strictly below the output-side reserve:
one swap can never drain the pool. -/
theorem amount_out_lt_reserve_out (a ri ro o : Nat)
    (h : calculate_amount_out a ri ro = .ok o) : o < ro := by
  obtain ⟨ha, hri, hro, ho⟩ := amount_out_ok_shape h
  subst ho
  rw [Nat.div_lt_iff_lt_mul (by positivity)]
  nlinarith

/-- Witness for C10 at the repository fee test input (output 906, reserve
10000). -/
theorem amount_out_lt_reserve_out_witness :
    calculate_amount_out 1000 10000 10000 = .ok 906 ∧ 906 < 10000 :=
  ⟨by decide, amount_out_lt_reserve_out 1000 10000 10000 906 (by decide)⟩

/-- Bound of the 128-bit cast target of U256::as_u128, which panics above it. -/
def U128LIMIT : Nat := 2 ^ 128

/-- Bound of the 96-bit coefficient of the rust_decimal Decimal type. -/
def TWO96 : Nat := 2 ^ 96

/-- Result of a Rust computation that can panic besides returning a
Result-style error: panics models an uncaught panic (array slice out of
range, overflowing cast, overflowing plain arithmetic). -/
inductive ImpactResult where
  | panics
  | fail (e : UniswapError)
  | val (n : Nat)
deriving DecidableEq, Repr

/-- Embedding of UniswapV2Client::calculate_price_impact (uniswap.rs lines
191-210): zero reserve is InsufficientLiquidity, the checked multiplication
by 10000 maps overflow to InvalidAmount, then the truncating division by the
reserve; the U256::as_u128 cast panics when the quotient exceeds 128 bits.
The source finally converts the u128 to f64 and divides by 100.0 for
display; the exact pre-display value (hundredths of a percent) is what this
model returns. -/
def calculate_price_impact (amount_in reserve_in : Nat) : ImpactResult :=
  if reserve_in = 0 then .fail .insufficientLiquidity
  else if U256LIMIT ≤ amount_in * 10000 then .fail .invalidAmount
  else if amount_in * 10000 / reserve_in < U128LIMIT then
    .val (amount_in * 10000 / reserve_in)
  else .panics

/-- C8 counterexample: price_impact(1, 20000) succeeds and returns the scaled
value 0 (so the displayed percentage is 0.0) although amount_in is 1, not 0:
the integer truncation maps every amount_in below reserve_in / 10000 to
zero, refuting that the result is 0 only when amount_in is 0. -/
theorem price_impact_zero_for_nonzero_amount :
    calculate_price_impact 1 20000 = .val 0 ∧ (1 : Nat) ≠ 0 := by
  refine ⟨by decide, by decide⟩

/-- C8 amended: whenever calculate_price_impact succeeds it returns the
scaled integer floor(amount_in * 10000 / reserve_in), whose displayed value
scaled down by 100 equals amount_in / reserve_in * 100 to within 1/100
(truncation rounding), and that value is 0 exactly when amount_in * 10000 <
reserve_in (in particular for amount_in = 0, but also for small positive
amounts). -/
theorem price_impact_scaled_accuracy (a r : Nat) (hr : r ≠ 0)
    (hof : a * 10000 < U256LIMIT) (hcast : a * 10000 / r < U128LIMIT) :
    calculate_price_impact a r = .val (a * 10000 / r) ∧
    |((a * 10000 / r : Nat) : ℚ) / 100 - (a : ℚ) * 100 / (r : ℚ)| < 1 / 100 ∧
    (a * 10000 / r = 0 ↔ a * 10000 < r) := by
  have hrpos : 0 < r := Nat.pos_of_ne_zero hr
  have hrQ : (0 : ℚ) < (r : ℚ) := by exact_mod_cast hrpos
  refine ⟨?_, ?_, ?_⟩
  · rw [calculate_price_impact, if_neg hr, if_neg (by omega), if_pos hcast]
  · have hlow : a * 10000 / r * r ≤ a * 10000 := Nat.div_mul_le_self _ _
    have hdm := Nat.div_add_mod' (a * 10000) r
    have hmlt := Nat.mod_lt (a * 10000) hrpos
    have hhigh : a * 10000 < (a * 10000 / r + 1) * r := by
      rw [Nat.succ_mul]
      omega
    have hlowQ : ((a * 10000 / r : Nat) : ℚ) * r ≤ (a : ℚ) * 10000 := by
      exact_mod_cast hlow
    have hhighQ : (a : ℚ) * 10000 < (((a * 10000 / r : Nat) : ℚ) + 1) * r := by
      exact_mod_cast hhigh
    rw [abs_sub_lt_iff]
    constructor
    · have hle : ((a * 10000 / r : Nat) : ℚ) / 100 ≤ (a : ℚ) * 100 / (r : ℚ) := by
        rw [div_le_div_iff (by norm_num) hrQ]
        nlinarith
      linarith
    · rw [sub_lt_iff_lt_add]
      have : (a : ℚ) * 100 / (r : ℚ) < (((a * 10000 / r : Nat) : ℚ) + 1) / 100 := by
        rw [div_lt_div_iff hrQ (by norm_num)]
        nlinarith
      calc (a : ℚ) * 100 / (r : ℚ)
          < (((a * 10000 / r : Nat) : ℚ) + 1) / 100 := this
        _ = 1 / 100 + ((a * 10000 / r : Nat) : ℚ) / 100 := by ring
  · rw [Nat.div_eq_zero_iff hrpos]

/-- Witness for C8 amended at amount_in 1, reserve_in 3: scaled value 3333,
displayed 33.33, true ratio 33.333..., within 1/100. -/
theorem price_impact_scaled_accuracy_witness :
    (3 : Nat) ≠ 0 ∧
    (calculate_price_impact 1 3 = .val (1 * 10000 / 3) ∧
      |((1 * 10000 / 3 : Nat) : ℚ) / 100 - ((1 : Nat) : ℚ) * 100 / ((3 : Nat) : ℚ)| < 1 / 100 ∧
      (1 * 10000 / 3 = 0 ↔ 1 * 10000 < 3)) :=
  ⟨by decide, price_impact_scaled_accuracy 1 3 (by decide) (by decide) (by decide)⟩

/-- Substring test on character lists, used to embed str::contains. -/
def listHasSub (sub : List Char) : List Char → Bool
  | [] => sub.isEmpty
  | c :: rest => sub.isPrefixOf (c :: rest) || listHasSub sub rest

/-- Embedding of str::contains for the revert-reason classifier. -/
def strHasSub (s sub : String) : Bool := listHasSub sub.data s.data

/-- Embedding of extract_revert_reason (uniswap.rs lines 432-448): pattern
match over the provider error message, falling back to the raw text. -/
def extract_revert_reason (msg : String) : Option String :=
  if strHasSub msg "execution reverted" then some msg
  else if strHasSub msg "insufficient" then some "Insufficient liquidity or balance"
  else if strHasSub msg "TRANSFER_FROM_FAILED" then some "Token transfer failed (check allowance)"
  else if strHasSub msg "EXPIRED" then some "Transaction deadline expired"
  else some msg

/-- Embedding of the SwapSimulation struct (uniswap.rs lines 459-466),
restricted to the three fields the invariant concerns (the quote field
carries the SwapQuote and plays no role in it). -/
structure SwapSimulation where
  gas_estimate : Option Nat
  simulation_success : Bool
  revert_reason : Option String
deriving DecidableEq, Repr

/-- Embedding of the outcome assembly of simulate_swap (uniswap.rs lines
402-428): the read-only router call result and the gas-estimation call
result are the two chain interactions, abstracted here as inputs; the match
over them is the source's match verbatim (success keeps an optional gas
value and no revert reason, failure classifies the error and drops gas). -/
def simulate_swap_outcome (callRes : Except String Unit)
    (gasRes : Except String Nat) : SwapSimulation :=
  match callRes with
  | .ok _ =>
    { gas_estimate := match gasRes with | .ok g => some g | .error _ => none
      simulation_success := true
      revert_reason := none }
  | .error e =>
    { gas_estimate := none
      simulation_success := false
      revert_reason := extract_revert_reason e }

/-- C9: in every SwapSimulation produced by simulate_swap, a present gas
estimate implies the success flag, success implies no revert reason, and
failure implies an absent gas estimate. -/
theorem swap_simulation_gas_invariant :
    ∀ (callRes : Except String Unit) (gasRes : Except String Nat),
      ((simulate_swap_outcome callRes gasRes).gas_estimate.isSome →
        (simulate_swap_outcome callRes gasRes).simulation_success = true) ∧
      ((simulate_swap_outcome callRes gasRes).simulation_success = true →
        (simulate_swap_outcome callRes gasRes).revert_reason = none) ∧
      ((simulate_swap_outcome callRes gasRes).simulation_success = false →
        (simulate_swap_outcome callRes gasRes).gas_estimate = none) := by
  intro c g
  cases c <;> cases g <;> simp [simulate_swap_outcome]

/-- Witness for C9: a successful call with a successful gas estimate has the
success flag set and no revert reason. -/
theorem swap_simulation_gas_invariant_witness :
    (simulate_swap_outcome (.ok ()) (.ok 21000)).simulation_success = true ∧
    (simulate_swap_outcome (.ok ()) (.ok 21000)).revert_reason = none :=
  And.intro
    ((swap_simulation_gas_invariant (.ok ()) (.ok 21000)).1 (by decide))
    ((swap_simulation_gas_invariant (.ok ()) (.ok 21000)).2.1
      ((swap_simulation_gas_invariant (.ok ()) (.ok 21000)).1 (by decide)))

/-- Structured form of a plain decimal string: an optional minus sign, the
digits before the point and the digits after it (each entry one digit). -/
structure DecimalInput where
  neg : Bool
  intDigits : List Nat
  fracDigits : List Nat

/-- Numeric value of a digit string, most significant first. -/
def digitsVal (ds : List Nat) : Nat := ds.foldl (fun acc d => acc * 10 + d) 0

/-- Model of rust_decimal Decimal::from_str on a plain decimal string: the
parsed coefficient must fit the 96-bit mantissa of the Decimal type, which
errors otherwise (the repository test test_u256_to_decimal_safe relies on
exactly this failure at 10^30); inputs with more than 28 fractional digits
are rounded by the library, a regime no claim here touches, and are mapped
to the failure case. Returns (sign, coefficient, scale). -/
def decimalFromStr? (inp : DecimalInput) : Option (Bool × Nat × Nat) :=
  if inp.fracDigits.length ≤ 28 ∧ digitsVal (inp.intDigits ++ inp.fracDigits) < TWO96 then
    some (inp.neg, digitsVal (inp.intDigits ++ inp.fracDigits), inp.fracDigits.length)
  else none

/-- Error cases of parse_units (erc20.rs returns them as message strings). -/
inductive ParseUnitsError where
  | invalidFormat
  | negativeAmount
  | precisionExceeded
  | amountTooLarge
deriving DecidableEq, Repr

/-- Embedding of parse_units (erc20.rs lines 236-273): parse through the
bounded Decimal type, reject negative amounts, reject fractions longer than
the token decimal count, then right-pad the digit string with zeros up to
the decimal count and read it back as a U256, failing when it exceeds 256
bits as U256::from_dec_str does. The round-trip through Decimal::to_string
and string concatenation is rendered by the identity
value = coefficient * 10 ^ (decimals - scale). -/
def parse_units (inp : DecimalInput) (decimals : Nat) : Except ParseUnitsError Nat :=
  match decimalFromStr? inp with
  | none => .error .invalidFormat
  | some psd =>
    if psd.1 then .error .negativeAmount
    else if decimals < psd.2.2 then .error .precisionExceeded
    else if psd.2.1 * 10 ^ (decimals - psd.2.2) < U256LIMIT then
      .ok (psd.2.1 * 10 ^ (decimals - psd.2.2))
    else .error .amountTooLarge

/-- C2 counterexample: the non-negative input 10^30 (31 integer digits, no
fraction) at 0 decimals scales to 10^30, which fits 256 bits, yet
parse_units fails: Decimal::from_str overflows its 96-bit coefficient (the
repository test test_u256_to_decimal_safe documents this overflow at 10^30).
Parsing therefore does depend on a bounded-width parse and does not support
arbitrarily many integer digits. -/
theorem parse_units_large_integer_fails :
    parse_units ⟨false, 1 :: List.replicate 30 0, []⟩ 0 = .error .invalidFormat ∧
    digitsVal ((1 :: List.replicate 30 0) ++ []) = 10 ^ 30 ∧
    10 ^ 30 < U256LIMIT := by
  refine ⟨by decide, by decide, by decide⟩

/-- C2 amended: parse_units succeeds with the exactly scaled value for every
non-negative input with at most decimals fractional digits and a 256-bit
scaled value, provided the input also fits the bounded Decimal parse: at
most 28 fractional digits and digit value below 2^96. Integer digits beyond
the 64-bit range are fine within that bound; beyond it parsing fails even
when the scaled value fits 256 bits. -/
theorem parse_units_ok_within_decimal_range
    (inp : DecimalInput) (decimals : Nat)
    (hneg : inp.neg = false)
    (hsc28 : inp.fracDigits.length ≤ 28)
    (hscd : inp.fracDigits.length ≤ decimals)
    (hmant : digitsVal (inp.intDigits ++ inp.fracDigits) < TWO96)
    (hval : digitsVal (inp.intDigits ++ inp.fracDigits) *
        10 ^ (decimals - inp.fracDigits.length) < U256LIMIT) :
    parse_units inp decimals =
      .ok (digitsVal (inp.intDigits ++ inp.fracDigits) *
        10 ^ (decimals - inp.fracDigits.length)) := by
  have hd : decimalFromStr? inp =
      some (inp.neg, digitsVal (inp.intDigits ++ inp.fracDigits),
        inp.fracDigits.length) := by
    rw [decimalFromStr?, if_pos ⟨hsc28, hmant⟩]
  rw [parse_units, hd]
  simp only [hneg, Bool.false_eq_true, if_false]
  rw [if_neg (by omega), if_pos hval]

/-- Witness for C2 amended: the input 1.5 at 18 decimals parses to
1.5 * 10^18, matching the repository test. -/
theorem parse_units_ok_within_decimal_range_witness :
    parse_units ⟨false, [1], [5]⟩ 18 = .ok 1500000000000000000 :=
  parse_units_ok_within_decimal_range ⟨false, [1], [5]⟩ 18 rfl
    (by decide) (by decide) (by decide) (by decide)

/-- Bound of the usize type of the target platform; U256::as_usize panics
above it. -/
def U64LIMIT : Nat := 2 ^ 64

/-- Big-endian value of a byte list (U256::from_big_endian). -/
def beVal (bytes : List Nat) : Nat := bytes.foldl (fun acc b => acc * 256 + b) 0

/-- Outcome of parse_string_return: an uncaught panic, the None failure
(MalformedReturn at the caller), or the decoded character string. -/
inductive StringReturn where
  | panics
  | malformed
  | decoded (s : List Char)
deriving DecidableEq, Repr

/-- UTF-8 decoder modelling String::from_utf8 validity (RFC 3629): one to
four byte sequences, continuation bytes in 0x80-0xBF, no overlong forms, no
surrogates, nothing above U+10FFFF. -/
def utf8Decode? : List Nat → Option (List Char)
  | [] => some []
  | b0 :: rest =>
    if b0 < 0x80 then
      (utf8Decode? rest).map (fun cs => Char.ofNat b0 :: cs)
    else if 0xC2 ≤ b0 ∧ b0 ≤ 0xDF then
      match rest with
      | b1 :: rest2 =>
        if 0x80 ≤ b1 ∧ b1 ≤ 0xBF then
          (utf8Decode? rest2).map (fun cs =>
            Char.ofNat ((b0 - 0xC0) * 64 + (b1 - 0x80)) :: cs)
        else none
      | [] => none
    else if 0xE0 ≤ b0 ∧ b0 ≤ 0xEF then
      match rest with
      | b1 :: b2 :: rest3 =>
        if (0x80 ≤ b1 ∧ b1 ≤ 0xBF) ∧ (0x80 ≤ b2 ∧ b2 ≤ 0xBF) ∧
            (b0 = 0xE0 → 0xA0 ≤ b1) ∧ (b0 = 0xED → b1 ≤ 0x9F) then
          (utf8Decode? rest3).map (fun cs =>
            Char.ofNat ((b0 - 0xE0) * 4096 + (b1 - 0x80) * 64 + (b2 - 0x80)) :: cs)
        else none
      | _ => none
    else if 0xF0 ≤ b0 ∧ b0 ≤ 0xF4 then
      match rest with
      | b1 :: b2 :: b3 :: rest4 =>
        if (0x80 ≤ b1 ∧ b1 ≤ 0xBF) ∧ (0x80 ≤ b2 ∧ b2 ≤ 0xBF) ∧
            (0x80 ≤ b3 ∧ b3 ≤ 0xBF) ∧
            (b0 = 0xF0 → 0x90 ≤ b1) ∧ (b0 = 0xF4 → b1 ≤ 0x8F) then
          (utf8Decode? rest4).map (fun cs =>
            Char.ofNat ((b0 - 0xF0) * 262144 + (b1 - 0x80) * 4096 +
              (b2 - 0x80) * 64 + (b3 - 0x80)) :: cs)
        else none
      | _ => none
    else none

/-- Embedding of parse_string_return (erc20.rs lines 187-209): a buffer
below 64 bytes fails; the first 32-byte word is the offset (U256::as_usize
panics above 64 bits); an offset at or past the end fails; the 32-byte
length slice at the offset panics when it runs past the end (the source
indexes data with offset..offset+32 after checking only offset <
data.len()); a length running past the end fails; the designated bytes are
then decoded as UTF-8, invalid UTF-8 failing. -/
def parse_string_return (data : List Nat) : StringReturn :=
  if data.length < 64 then .malformed
  else
    let off := beVal (data.take 32)
    if U64LIMIT ≤ off then .panics
    else if data.length ≤ off then .malformed
    else if data.length < off + 32 then .panics
    else
      let len := beVal ((data.drop off).take 32)
      if U64LIMIT ≤ len then .panics
      else if data.length < off + 32 + len then .malformed
      else
        match utf8Decode? ((data.drop (off + 32)).take len) with
        | some s => .decoded s
        | none => .malformed

/-- C5 (code bug): a 64-byte buffer whose offset word is 40 passes the
offset-below-length check, but the following 32-byte length slice runs to
byte 72, past the end of the 64-byte buffer: the source indexes data[40..72]
and panics instead of returning the MalformedReturn failure the claim (and
the function's own graceful-failure design) requires. A well-formed buffer,
by contrast, decodes normally, as the repository USDC test shows. -/
theorem parse_string_return_oob_offset_panics :
    parse_string_return (List.replicate 31 0 ++ [40] ++ List.replicate 32 0) =
      .panics ∧
    (List.replicate 31 0 ++ [40] ++ List.replicate 32 0 : List Nat).length = 64 ∧
    parse_string_return
      (List.replicate 31 0 ++ [32] ++ List.replicate 31 0 ++ [4] ++
        [85, 83, 68, 67] ++ List.replicate 28 0) =
      .decoded ['U', 'S', 'D', 'C'] := by
  refine ⟨by decide, by decide, by decide⟩

/-- Representation of a non-negative rust_decimal Decimal value as
coefficient and scale: the value is m / 10 ^ s. Library invariants kept by
the operations below: m below 2 ^ 96 and s at most 28. -/
structure RDec where
  m : Nat
  s : Nat
deriving DecidableEq, Repr

/-- Model of u256_to_decimal_safe (price.rs lines 277-280): Decimal::from_str
on the decimal string of a U256 value parses exactly iff the value fits the
96-bit coefficient, else errors (the repository test exercises the failure
at 10^30). -/
def u256_to_decimal_safe (v : Nat) : Option RDec :=
  if v < TWO96 then some ⟨v, 0⟩ else none

/-- Model of decimal_pow10 (price.rs lines 283-287): Decimal::from_str on a
one followed by n zeros, with unwrap_or falling back to Decimal::ONE when
that string does not fit the Decimal type (n of 29 or more overflows the
96-bit coefficient). -/
def decimal_pow10 (n : Nat) : RDec :=
  if 10 ^ n < TWO96 then ⟨10 ^ n, 0⟩ else ⟨1, 0⟩

/-- Removal of trailing zero digits from a coefficient while a positive
scale allows, giving the scale the library's exact long division ends at. -/
def stripZeros : Nat → Nat → Nat × Nat
  | m, 0 => (m, 0)
  | m, s + 1 => if m % 10 = 0 then stripZeros (m / 10) s else (m, s + 1)

/-- Model of Decimal division, used by calculate_price_ratio as
ratio / 10^18 and as ONE / 10^n: the library long-divides, stopping at the
exact quotient or truncating at the 28-digit precision ceiling (every use
reached by the claims below is exact), produces no trailing zero digits,
panics on division by zero and on a quotient whose integer part cannot fit
the coefficient (both modelled as none). -/
def rdecDiv (a b : RDec) : Option RDec :=
  if b.m = 0 then none
  else
    let t := stripZeros (a.m * 10 ^ (b.s + 28) / (b.m * 10 ^ a.s)) 28
    if t.1 < TWO96 then some ⟨t.1, t.2⟩ else none

/-- Rescale loop of Decimal multiplication: while the product coefficient
overflows 96 bits or the scale exceeds 28, a fractional digit is dropped
(the library rounds the dropped digits; every use reached by the claims
below stays in the exact regime where no digit is dropped); if even scale
zero cannot fit, the library panics (none). -/
def mulRescale (m : Nat) : Nat → Option RDec
  | 0 => if m < TWO96 then some ⟨m, 0⟩ else none
  | s + 1 =>
    if m < TWO96 ∧ s + 1 ≤ 28 then some ⟨m, s + 1⟩ else mulRescale (m / 10) s

/-- Model of Decimal multiplication: coefficients multiply, scales add,
then the rescale loop applies. -/
def rdecMul (a b : RDec) : Option RDec := mulRescale (a.m * b.m) (a.s + b.s)

/-- Little-endian decimal digits of a natural number, one digit per unit of
fuel (fuel n suffices for any n). -/
def natDigitsRev : Nat → Nat → List Nat
  | 0, _ => []
  | f + 1, n => if n = 0 then [] else n % 10 :: natDigitsRev f (n / 10)

/-- Character of a single decimal digit. -/
def digitChar (d : Nat) : Char := Char.ofNat (48 + d)

/-- Decimal rendering of a natural number, most significant digit first,
as the Display of U256 and of the integer part of a Decimal produce it. -/
def natChars (n : Nat) : List Char :=
  if n = 0 then ['0'] else ((natDigitsRev n n).map digitChar).reverse

/-- Left zero-padding to a field width, as the width formatting option of
the source's fractional formatting produces it. -/
def padZeros (w : Nat) (l : List Char) : List Char :=
  List.replicate (w - l.length) '0' ++ l

/-- Removal of all trailing occurrences of a character
(str::trim_end_matches). -/
def trimTrailing (c : Char) (l : List Char) : List Char :=
  (l.reverse.dropWhile (fun x => x == c)).reverse

/-- Model of the Display of a Decimal under the fixed precision 6: the
integer digits, the point, then exactly the first six fractional digits of
the scale-s digit expansion (truncated or zero padded; the library writes
the stored digits without rounding). -/
def fmtDot6 (x : RDec) : List Char :=
  natChars (x.m / 10 ^ x.s) ++
    '.' :: padZeros 6 (natChars (x.m * 10 ^ 6 / 10 ^ x.s % 10 ^ 6))

/-- The trailing-zero and trailing-point trim applied to the formatted
price (price.rs line 263). -/
def priceTrim (l : List Char) : List Char := trimTrailing '.' (trimTrailing '0' l)

/-- Embedding of format_u256_division_internal (price.rs lines 315-336):
integer part, remainder, early ".0" return on a zero remainder, six
fractional digits by scaling the remainder by 10^6 before dividing, zero
padding and trailing-zero trimming with "0" fallback. The U256
multiplications panic on overflow (none). -/
def format_u256_division_internal (numerator denominator decimal_places : Nat) :
    Option String :=
  if denominator = 0 then some "0"
  else
    let integer_part := numerator / denominator
    let remainder := numerator % denominator
    if remainder = 0 then some (String.mk (natChars integer_part ++ ['.', '0']))
    else if U256LIMIT ≤ 10 ^ decimal_places then none
    else if U256LIMIT ≤ remainder * 10 ^ decimal_places then none
    else
      let fractional_scaled := remainder * 10 ^ decimal_places / denominator
      let frac_trimmed :=
        trimTrailing '0' (padZeros decimal_places (natChars fractional_scaled))
      some (String.mk (natChars integer_part ++
        '.' :: (if frac_trimmed = [] then ['0'] else frac_trimmed)))

/-- Embedding of format_u256_division_fallback (price.rs lines 290-312):
zero denominator returns "0"; the decimal-count difference scales the
numerator (non-negative difference) or the denominator (negative
difference) by a power of ten before the six-digit division; the U256 pow
and mul panic on overflow (none). -/
def format_u256_division_fallback
    (numerator denominator numerator_decimals denominator_decimals : Nat) :
    Option String :=
  if denominator = 0 then some "0"
  else
    let sd : Int := (numerator_decimals : Int) - (denominator_decimals : Int)
    if U256LIMIT ≤ 10 ^ sd.natAbs then none
    else if 0 ≤ sd then
      if U256LIMIT ≤ numerator * 10 ^ sd.natAbs then none
      else format_u256_division_internal (numerator * 10 ^ sd.natAbs) denominator 6
    else
      if U256LIMIT ≤ denominator * 10 ^ sd.natAbs then none
      else format_u256_division_internal numerator (denominator * 10 ^ sd.natAbs) 6

/-- Embedding of calculate_price_ratio (price.rs lines 219-264): zero
denominator returns "0"; the raw ratio is scaled by 10^18 in U256 (panic on
overflow of the plain multiplication), converted to Decimal with the
big-integer fallback on conversion failure; otherwise the decimal-count
adjustment 10^diff (or ONE / 10^diff for a negative diff) is applied after
dividing the scaled ratio by 10^18, all in Decimal arithmetic; the result
is formatted at precision 6 and trimmed of trailing zeros and point. -/
def calculate_price_ratio
    (numerator_reserve denominator_reserve numerator_decimals denominator_decimals : Nat) :
    Option String :=
  if denominator_reserve = 0 then some "0"
  else if U256LIMIT ≤ numerator_reserve * 10 ^ 18 then none
  else
    match u256_to_decimal_safe (numerator_reserve * 10 ^ 18 / denominator_reserve) with
    | none =>
      format_u256_division_fallback numerator_reserve denominator_reserve
        numerator_decimals denominator_decimals
    | some ratio_dec =>
      let sd : Int := (numerator_decimals : Int) - (denominator_decimals : Int)
      match
        if 0 ≤ sd then some (decimal_pow10 sd.natAbs)
        else rdecDiv ⟨1, 0⟩ (decimal_pow10 sd.natAbs) with
      | none => none
      | some adj =>
        match rdecDiv ratio_dec ⟨10 ^ 18, 0⟩ with
        | none => none
        | some price_scaled =>
          match rdecMul price_scaled adj with
          | none => none
          | some final_price => some (String.mk (priceTrim (fmtDot6 final_price)))

/-- C4 counterexample: at numerator 5*10^33 and denominator 2*10^30, both 0
decimals, the scaled ratio 2.5*10^21 fits the 96-bit Decimal coefficient,
so calculate_price_ratio stays on its primary Decimal path, which returns
"2500" — not "2500.0", and not via the fallback. -/
theorem price_ratio_extreme_uses_primary :
    calculate_price_ratio (5 * 10 ^ 33) (2 * 10 ^ 30) 0 0 = some "2500" ∧
    u256_to_decimal_safe (5 * 10 ^ 33 * 10 ^ 18 / (2 * 10 ^ 30)) =
      some ⟨2500000000000000000000, 0⟩ ∧
    some "2500" ≠ some "2500.0" := by
  refine ⟨by decide, by decide, by decide⟩

/-- C4 amended: at the extreme reserves calculate_price_ratio returns
"2500" through the primary Decimal path, while the big-integer fallback
routine applied directly to the same inputs (which is what the repository
extreme-reserves test calls) returns "2500.0". -/
theorem price_ratio_extreme_values :
    calculate_price_ratio (5 * 10 ^ 33) (2 * 10 ^ 30) 0 0 = some "2500" ∧
    format_u256_division_fallback (5 * 10 ^ 33) (2 * 10 ^ 30) 0 0 = some "2500.0" := by
  refine ⟨by decide, by decide⟩

/-- C3 counterexample: numerator reserve 1, denominator reserve 300 (well
inside the safe Decimal range: the scaled ratio is about 3.3*10^15), with
numerator decimals 13 and denominator decimals 0: the primary path returns
"33333333333.33333" — its 10^18 precision factor keeps only five fractional
digits after the 10^13 adjustment — while the fallback path returns
"33333333333.333333": the two paths disagree in the sixth fractional digit.
-/
theorem price_ratio_paths_disagree :
    calculate_price_ratio 1 300 13 0 = some "33333333333.33333" ∧
    format_u256_division_fallback 1 300 13 0 = some "33333333333.333333" ∧
    u256_to_decimal_safe (1 * 10 ^ 18 / 300) = some ⟨3333333333333333, 0⟩ ∧
    some "33333333333.33333" ≠ some "33333333333.333333" := by
  refine ⟨by decide, by decide, by decide, by decide⟩

lemma stripZeros_spec : ∀ (s m m1 s1 : Nat), stripZeros m s = (m1, s1) →
    m = m1 * 10 ^ (s - s1) ∧ s1 ≤ s := by
  intro s
  induction s with
  | zero =>
    intro m m1 s1 h
    rw [stripZeros] at h
    cases h
    simp
  | succ s ih =>
    intro m m1 s1 h
    rw [stripZeros] at h
    split_ifs at h with hz
    · obtain ⟨h1, h2⟩ := ih (m / 10) m1 s1 h
      constructor
      · have hm : m = m / 10 * 10 := by omega
        rw [hm, h1, mul_assoc, ← pow_succ]
        congr 2
        omega
      · omega
    · cases h
      simp

lemma stripZeros_mul_pow : ∀ (k m s : Nat), stripZeros (m * 10 ^ k) (s + k) = stripZeros m s := by
  intro k
  induction k with
  | zero => intro m s; simp
  | succ k ih =>
    intro m s
    have hidx : s + (k + 1) = (s + k) + 1 := rfl
    rw [hidx, stripZeros]
    have hmod : m * 10 ^ (k + 1) % 10 = 0 := by
      rw [pow_succ, ← mul_assoc]
      exact Nat.mul_mod_left _ 10
    rw [if_pos hmod]
    have hdiv : m * 10 ^ (k + 1) / 10 = m * 10 ^ k := by
      rw [pow_succ, ← mul_assoc]
      exact Nat.mul_div_cancel _ (by norm_num)
    rw [hdiv]
    exact ih m s

lemma rdecDiv_pow18 (m m1 s1 : Nat) (hm : m < TWO96)
    (hstrip : stripZeros m 18 = (m1, s1)) :
    rdecDiv ⟨m, 0⟩ ⟨10 ^ 18, 0⟩ = some ⟨m1, s1⟩ := by
  have h18 : (10 : Nat) ^ 18 ≠ 0 := by positivity
  simp only [rdecDiv, if_neg h18]
  have hq : m * 10 ^ (0 + 28) / ((10 : Nat) ^ 18 * 10 ^ 0) = m * 10 ^ 10 := by
    rw [Nat.zero_add, pow_zero, Nat.mul_one,
      show (10 : Nat) ^ 28 = 10 ^ 10 * 10 ^ 18 from by norm_num, ← mul_assoc]
    exact Nat.mul_div_cancel _ (by positivity)
  rw [hq, show (28 : Nat) = 18 + 10 from rfl, stripZeros_mul_pow, hstrip]
  obtain ⟨h1, -⟩ := stripZeros_spec 18 m m1 s1 hstrip
  have hle : m1 ≤ m := by
    rw [h1]
    exact Nat.le_mul_of_pos_right _ (by positivity)
  rw [if_pos (lt_of_le_of_lt hle hm)]

lemma mulRescale_exact (M S : Nat) (hM : M < TWO96) (hS : S ≤ 28) :
    mulRescale M S = some ⟨M, S⟩ := by
  cases S with
  | zero => rw [mulRescale, if_pos hM]
  | succ s => rw [mulRescale, if_pos ⟨hM, hS⟩]

lemma decimal_pow10_small (n : Nat) (hn : n ≤ 28) : decimal_pow10 n = ⟨10 ^ n, 0⟩ := by
  rw [decimal_pow10, if_pos]
  calc (10 : Nat) ^ n ≤ 10 ^ 28 := Nat.pow_le_pow_right (by norm_num) hn
    _ < TWO96 := by decide

lemma trimTrailing_eq_nil_iff (c : Char) (B : List Char) :
    trimTrailing c B = [] ↔ ∀ x ∈ B, x = c := by
  rw [trimTrailing, List.reverse_eq_nil_iff, List.dropWhile_eq_nil_iff]
  constructor
  · intro h x hx
    exact eq_of_beq (h x (List.mem_reverse.mpr hx))
  · intro h x hx
    exact beq_iff_eq.mpr (h x (List.mem_reverse.mp hx))

lemma trimTrailing_append (c : Char) (A B : List Char) :
    trimTrailing c (A ++ B) =
      if trimTrailing c B = [] then trimTrailing c A else A ++ trimTrailing c B := by
  have hkey : trimTrailing c B = [] ↔
      (List.dropWhile (fun x => x == c) B.reverse).isEmpty = true := by
    rw [trimTrailing, List.isEmpty_iff, List.reverse_eq_nil_iff]
  rw [trimTrailing, List.reverse_append, List.dropWhile_append]
  split_ifs with h1 h2 h2
  · rfl
  · exact absurd (hkey.mpr h1) h2
  · exact absurd (hkey.mp h2) (by simpa using h1)
  · rw [List.reverse_append, List.reverse_reverse]
    rfl

lemma trimTrailing_of_getLast_ne (c : Char) (l : List Char)
    (h : ∀ x, l.getLast? = some x → x ≠ c) : trimTrailing c l = l := by
  rw [trimTrailing]
  cases hrev : l.reverse with
  | nil =>
    rw [List.dropWhile_nil, ← hrev, List.reverse_reverse]
  | cons a t =>
    have ha : l.getLast? = some a := by
      rw [← List.head?_reverse, hrev]
      rfl
    have hbeq : (a == c) = false := beq_eq_false_iff_ne.mpr (h a ha)
    rw [List.dropWhile_cons, hbeq]
    simp only [Bool.false_eq_true, if_false]
    rw [← hrev, List.reverse_reverse]

lemma trimTrailing_subset (c : Char) (l : List Char) :
    ∀ x ∈ trimTrailing c l, x ∈ l := by
  intro x hx
  rw [trimTrailing, List.mem_reverse] at hx
  exact List.mem_reverse.mp ((List.dropWhile_sublist _).subset hx)

lemma mem_of_getLast?_eq {l : List Char} {x : Char} (h : l.getLast? = some x) :
    x ∈ l := by
  obtain ⟨hne, hx⟩ := List.mem_getLast?_eq_getLast (show x ∈ l.getLast? from by rw [h]; rfl)
  rw [hx]
  exact List.getLast_mem hne

lemma natDigitsRev_lt : ∀ f n, ∀ d ∈ natDigitsRev f n, d < 10 := by
  intro f
  induction f with
  | zero => intro n d hd; rw [natDigitsRev] at hd; cases hd
  | succ f ih =>
    intro n d hd
    rw [natDigitsRev] at hd
    split_ifs at hd with h
    · cases hd
    · rcases List.mem_cons.mp hd with h1 | h1
      · subst h1; omega
      · exact ih _ _ h1

lemma natDigitsRev_all_zero : ∀ f n, n ≤ f → (∀ d ∈ natDigitsRev f n, d = 0) → n = 0 := by
  intro f
  induction f with
  | zero => intro n hn _; omega
  | succ f ih =>
    intro n hn hall
    by_cases h : n = 0
    · exact h
    · exfalso
      rw [natDigitsRev, if_neg h] at hall
      have h1 : n % 10 = 0 := hall _ (List.mem_cons_self _ _)
      have h2 : n / 10 = 0 := by
        apply ih
        · omega
        · intro d hd
          exact hall d (List.mem_cons_of_mem _ hd)
      omega

lemma natChars_not_all_zero {n : Nat} (hn : n ≠ 0) : ¬ ∀ c ∈ natChars n, c = '0' := by
  intro hall
  apply hn
  apply natDigitsRev_all_zero n n le_rfl
  intro d hd
  have hc : digitChar d ∈ natChars n := by
    rw [natChars, if_neg hn, List.mem_reverse]
    exact List.mem_map_of_mem _ hd
  have hd10 := natDigitsRev_lt n n d hd
  have hz : ∀ k, k < 10 → digitChar k = '0' → k = 0 := by decide
  exact hz d hd10 (hall _ hc)

lemma trimTrailing_padZeros_ne_nil {w F : Nat} (hF : F ≠ 0) :
    trimTrailing '0' (padZeros w (natChars F)) ≠ [] := by
  intro h
  have hall := (trimTrailing_eq_nil_iff _ _).mp h
  exact natChars_not_all_zero hF
    (fun c hc => hall c (List.mem_append_right _ hc))

lemma natChars_mem_digit {n : Nat} : ∀ c ∈ natChars n, ∃ d, d < 10 ∧ c = digitChar d := by
  intro c hc
  rw [natChars] at hc
  split_ifs at hc with h
  · rcases List.mem_singleton.mp hc with rfl
    exact ⟨0, by omega, rfl⟩
  · rw [List.mem_reverse] at hc
    obtain ⟨d, hd, rfl⟩ := List.mem_map.mp hc
    exact ⟨d, natDigitsRev_lt _ _ _ hd, rfl⟩

lemma padZeros_mem_digit {w : Nat} {l : List Char}
    (hl : ∀ c ∈ l, ∃ d, d < 10 ∧ c = digitChar d) :
    ∀ c ∈ padZeros w l, ∃ d, d < 10 ∧ c = digitChar d := by
  intro c hc
  rcases List.mem_append.mp hc with h | h
  · exact ⟨0, by omega, List.eq_of_mem_replicate h⟩
  · exact hl c h

lemma digitChar_ne_dot : ∀ d, d < 10 → digitChar d ≠ '.' := by decide

lemma trimDot_natChars (n : Nat) : trimTrailing '.' (natChars n) = natChars n := by
  apply trimTrailing_of_getLast_ne
  intro x hx
  obtain ⟨d, hd, rfl⟩ := natChars_mem_digit x (mem_of_getLast?_eq hx)
  exact digitChar_ne_dot d hd

lemma priceTrim_eq (ip F : Nat) :
    priceTrim (natChars ip ++ '.' :: padZeros 6 (natChars F)) =
      if F = 0 then natChars ip
      else natChars ip ++ '.' :: trimTrailing '0' (padZeros 6 (natChars F)) := by
  rw [priceTrim]
  by_cases hF : F = 0
  · subst hF
    have h1 : trimTrailing '0' ('.' :: padZeros 6 (natChars 0)) = ['.'] := by decide
    rw [trimTrailing_append '0' (natChars ip) ('.' :: padZeros 6 (natChars 0)),
      if_neg (by rw [h1]; exact List.cons_ne_nil _ _), h1,
      trimTrailing_append '.' (natChars ip) ['.'],
      if_pos (by decide), trimDot_natChars, if_pos rfl]
  · have hTne := trimTrailing_padZeros_ne_nil (w := 6) hF
    have h2 : trimTrailing '0' ('.' :: padZeros 6 (natChars F)) =
        '.' :: trimTrailing '0' (padZeros 6 (natChars F)) := by
      rw [show ('.' :: padZeros 6 (natChars F)) = ['.'] ++ padZeros 6 (natChars F) from rfl,
        trimTrailing_append '0' ['.'] (padZeros 6 (natChars F)), if_neg hTne]
      rfl
    rw [trimTrailing_append '0' (natChars ip) ('.' :: padZeros 6 (natChars F)),
      if_neg (by rw [h2]; exact List.cons_ne_nil _ _), h2]
    rw [trimTrailing_of_getLast_ne '.' _ ?_, if_neg hF]
    intro x hx
    have hre : (natChars ip ++ '.' :: trimTrailing '0' (padZeros 6 (natChars F))) =
        (natChars ip ++ ['.']) ++ trimTrailing '0' (padZeros 6 (natChars F)) := by
      simp
    rw [hre, List.getLast?_append_of_ne_nil _ hTne] at hx
    have hxP := trimTrailing_subset _ _ x (mem_of_getLast?_eq hx)
    obtain ⟨d, hd, rfl⟩ := padZeros_mem_digit (fun c hc => natChars_mem_digit c hc) x hxP
    exact digitChar_ne_dot d hd

lemma mul_pow_div_shift (x b k : Nat) : x / 10 ^ b = x * 10 ^ k / 10 ^ (b + k) := by
  rw [pow_add]
  exact (Nat.mul_div_mul_right x (10 ^ b) (by positivity)).symm

lemma primary_frac_eq (nr dr d m1 s1 : Nat) (_hdr : 0 < dr) (hd12 : d ≤ 12)
    (hstrip : stripZeros (nr * 10 ^ 18 / dr) 18 = (m1, s1)) :
    m1 * 10 ^ d * 10 ^ 6 / 10 ^ s1 = nr * 10 ^ d * 10 ^ 6 / dr := by
  obtain ⟨hmeq, hs1⟩ := stripZeros_spec 18 _ m1 s1 hstrip
  have hL : m1 * 10 ^ d * 10 ^ 6 / 10 ^ s1 = m1 * 10 ^ 18 / 10 ^ (s1 + (12 - d)) := by
    rw [mul_pow_div_shift (m1 * 10 ^ d * 10 ^ 6) s1 (12 - d)]
    congr 1
    calc m1 * 10 ^ d * 10 ^ 6 * 10 ^ (12 - d)
        = m1 * 10 ^ (d + 6 + (12 - d)) := by ring
      _ = m1 * 10 ^ 18 := by rw [show d + 6 + (12 - d) = 18 from by omega]
  have hR : nr * 10 ^ d * 10 ^ 6 / dr = m1 * 10 ^ 18 / 10 ^ ((12 - d) + s1) := by
    have h1 : nr * 10 ^ d * 10 ^ 6 / dr = nr * 10 ^ 18 / dr / 10 ^ (12 - d) := by
      rw [Nat.div_div_eq_div_mul]
      have h2 : nr * 10 ^ 18 = nr * 10 ^ d * 10 ^ 6 * 10 ^ (12 - d) := by
        calc nr * 10 ^ 18 = nr * 10 ^ (d + 6 + (12 - d)) := by
              rw [show d + 6 + (12 - d) = 18 from by omega]
          _ = nr * 10 ^ d * 10 ^ 6 * 10 ^ (12 - d) := by ring
      rw [h2, Nat.mul_div_mul_right _ _ (by positivity : (0 : Nat) < 10 ^ (12 - d))]
    have h3 : m1 * 10 ^ (18 - s1) / 10 ^ (12 - d) = m1 * 10 ^ 18 / 10 ^ ((12 - d) + s1) := by
      rw [mul_pow_div_shift (m1 * 10 ^ (18 - s1)) (12 - d) s1]
      congr 1
      calc m1 * 10 ^ (18 - s1) * 10 ^ s1 = m1 * 10 ^ (18 - s1 + s1) := by ring
        _ = m1 * 10 ^ 18 := by rw [show 18 - s1 + s1 = 18 from by omega]
    rw [h1, hmeq]
    exact h3
  rw [hL, hR, Nat.add_comm s1 (12 - d)]

lemma div_mul_decomp (N dr : Nat) (hdr : 0 < dr) :
    N * 10 ^ 6 / dr = N / dr * 10 ^ 6 + N % dr * 10 ^ 6 / dr ∧
    N % dr * 10 ^ 6 / dr < 10 ^ 6 := by
  constructor
  · conv_lhs => rw [← Nat.div_add_mod N dr]
    rw [add_mul, mul_assoc, Nat.mul_add_div hdr]
  · rw [Nat.div_lt_iff_lt_mul hdr]
    calc N % dr * 10 ^ 6 < dr * 10 ^ 6 :=
          mul_lt_mul_of_pos_right (Nat.mod_lt _ hdr) (by positivity)
      _ = 10 ^ 6 * dr := mul_comm _ _

lemma string_mk_append_dot0 (A : List Char) :
    String.mk (A ++ ['.', '0']) = String.mk A ++ ".0" := rfl

/-- C3 amended: for a non-zero denominator reserve, a decimal-count
difference between 0 and 12, and magnitudes inside the safe range (the
U256 scaling does not overflow, the scaled ratio and its decimal-adjusted
coefficient fit the 96-bit Decimal type, and the denominator times 10^6
fits 256 bits), the primary Decimal path of calculate_price_ratio and the
big-integer fallback path produce the same value to 6 fractional digits:
the fallback string is the primary string, except that a zero 6-digit
fraction is rendered ".0" by the fallback and dropped by the primary trim.
Beyond a decimal-count difference of 12 the paths can disagree in the
sixth digit, as the counterexample shows. -/
theorem price_ratio_paths_agree_small_scale_diff
    (nr dr nd dd : Nat) (hdr : dr ≠ 0) (hdd : dd ≤ nd) (hd12 : nd - dd ≤ 12)
    (hnr : nr * 10 ^ 18 < U256LIMIT)
    (hsafe : nr * 10 ^ 18 / dr < TWO96)
    (hmul : nr * 10 ^ 18 / dr * 10 ^ (nd - dd) < TWO96)
    (hdr6 : dr * 10 ^ 6 ≤ U256LIMIT) :
    ∃ s, calculate_price_ratio nr dr nd dd = some s ∧
      (format_u256_division_fallback nr dr nd dd = some s ∨
        format_u256_division_fallback nr dr nd dd = some (s ++ ".0")) := by
  have hdrpos : 0 < dr := Nat.pos_of_ne_zero hdr
  cases hstrip : stripZeros (nr * 10 ^ 18 / dr) 18 with
  | mk m1 s1 =>
  obtain ⟨hmeq, hs1⟩ := stripZeros_spec 18 _ m1 s1 hstrip
  have hm1le : m1 ≤ nr * 10 ^ 18 / dr := by
    rw [hmeq]
    exact Nat.le_mul_of_pos_right _ (by positivity)
  have hsd0 : (0 : Int) ≤ (nd : Int) - (dd : Int) := by omega
  have hnatabs : ((nd : Int) - (dd : Int)).natAbs = nd - dd := by omega
  have hconv : u256_to_decimal_safe (nr * 10 ^ 18 / dr) = some ⟨nr * 10 ^ 18 / dr, 0⟩ := by
    rw [u256_to_decimal_safe, if_pos hsafe]
  have hMlt : m1 * 10 ^ (nd - dd) < TWO96 :=
    lt_of_le_of_lt (Nat.mul_le_mul_right _ hm1le) hmul
  have hprim : calculate_price_ratio nr dr nd dd =
      some (String.mk (priceTrim (fmtDot6 ⟨m1 * 10 ^ (nd - dd), s1⟩))) := by
    simp only [calculate_price_ratio]
    rw [if_neg hdr, if_neg (not_le.mpr hnr), hconv]
    simp only []
    rw [if_pos hsd0, hnatabs, decimal_pow10_small (nd - dd) (by omega)]
    simp only []
    rw [rdecDiv_pow18 _ m1 s1 hsafe hstrip]
    simp only []
    simp only [rdecMul]
    simp only [Nat.add_zero]
    rw [mulRescale_exact _ _ hMlt (by omega)]
  have hfrac : m1 * 10 ^ (nd - dd) * 10 ^ 6 / 10 ^ s1 =
      nr * 10 ^ (nd - dd) * 10 ^ 6 / dr :=
    primary_frac_eq nr dr (nd - dd) m1 s1 hdrpos hd12 hstrip
  have hint : m1 * 10 ^ (nd - dd) / 10 ^ s1 = nr * 10 ^ (nd - dd) / dr := by
    have hL2 : m1 * 10 ^ (nd - dd) / 10 ^ s1 =
        m1 * 10 ^ (nd - dd) * 10 ^ 6 / 10 ^ s1 / 10 ^ 6 := by
      rw [Nat.div_div_eq_div_mul, Nat.mul_div_mul_right _ _
        (by positivity : (0 : Nat) < 10 ^ 6)]
    have hR2 : nr * 10 ^ (nd - dd) / dr =
        nr * 10 ^ (nd - dd) * 10 ^ 6 / dr / 10 ^ 6 := by
      rw [Nat.div_div_eq_div_mul, Nat.mul_div_mul_right _ _
        (by positivity : (0 : Nat) < 10 ^ 6)]
    rw [hL2, hfrac, ← hR2]
  obtain ⟨hdec1, hdec2⟩ := div_mul_decomp (nr * 10 ^ (nd - dd)) dr hdrpos
  have hmod : m1 * 10 ^ (nd - dd) * 10 ^ 6 / 10 ^ s1 % 10 ^ 6 =
      nr * 10 ^ (nd - dd) % dr * 10 ^ 6 / dr := by
    rw [hfrac, hdec1, Nat.mul_add_mod', Nat.mod_eq_of_lt hdec2]
  have hfmt : fmtDot6 ⟨m1 * 10 ^ (nd - dd), s1⟩ =
      natChars (nr * 10 ^ (nd - dd) / dr) ++
        '.' :: padZeros 6 (natChars (nr * 10 ^ (nd - dd) % dr * 10 ^ 6 / dr)) := by
    simp only [fmtDot6]
    rw [hint, hmod]
  have h6lt : ¬ U256LIMIT ≤ (10 : Nat) ^ 6 := by decide
  have hrems : ¬ U256LIMIT ≤ nr * 10 ^ (nd - dd) % dr * 10 ^ 6 := by
    apply not_le.mpr
    calc nr * 10 ^ (nd - dd) % dr * 10 ^ 6 < dr * 10 ^ 6 :=
          mul_lt_mul_of_pos_right (Nat.mod_lt _ hdrpos) (by positivity)
      _ ≤ U256LIMIT := hdr6
  have hfall : format_u256_division_fallback nr dr nd dd =
      format_u256_division_internal (nr * 10 ^ (nd - dd)) dr 6 := by
    simp only [format_u256_division_fallback]
    rw [if_neg hdr, hnatabs]
    have hpowlt : ¬ U256LIMIT ≤ (10 : Nat) ^ (nd - dd) := by
      apply not_le.mpr
      calc (10 : Nat) ^ (nd - dd) ≤ 10 ^ 12 := Nat.pow_le_pow_right (by norm_num) hd12
        _ < U256LIMIT := by decide
    have hnrd : ¬ U256LIMIT ≤ nr * 10 ^ (nd - dd) := by
      apply not_le.mpr
      calc nr * 10 ^ (nd - dd) ≤ nr * 10 ^ 18 :=
            Nat.mul_le_mul_left _ (Nat.pow_le_pow_right (by norm_num) (by omega))
        _ < U256LIMIT := hnr
    rw [if_neg hpowlt, if_pos hsd0, if_neg hnrd]
  by_cases hF0 : nr * 10 ^ (nd - dd) % dr * 10 ^ 6 / dr = 0
  · refine ⟨String.mk (natChars (nr * 10 ^ (nd - dd) / dr)), ?_, Or.inr ?_⟩
    · rw [hprim, hfmt, priceTrim_eq, if_pos hF0]
    · rw [hfall]
      simp only [format_u256_division_internal]
      rw [if_neg hdr]
      by_cases hrem : nr * 10 ^ (nd - dd) % dr = 0
      · rw [if_pos hrem, string_mk_append_dot0]
      · rw [if_neg hrem, if_neg h6lt, if_neg hrems, hF0,
          show trimTrailing '0' (padZeros 6 (natChars 0)) = [] from by decide,
          if_pos rfl, string_mk_append_dot0]
  · refine ⟨String.mk (natChars (nr * 10 ^ (nd - dd) / dr) ++
      '.' :: trimTrailing '0' (padZeros 6
        (natChars (nr * 10 ^ (nd - dd) % dr * 10 ^ 6 / dr)))), ?_, Or.inl ?_⟩
    · rw [hprim, hfmt, priceTrim_eq, if_neg hF0]
    · rw [hfall]
      simp only [format_u256_division_internal]
      rw [if_neg hdr]
      have hrem : ¬ nr * 10 ^ (nd - dd) % dr = 0 := by
        intro h
        apply hF0
        rw [h]
        simp
      rw [if_neg hrem, if_neg h6lt, if_neg hrems,
        if_neg (trimTrailing_padZeros_ne_nil hF0)]

/-- Witness for C3 amended at reserves 1 and 3 with equal decimal counts:
both paths compute 0.333333. -/
theorem price_ratio_paths_agree_small_scale_diff_witness :
    (1 : Nat) * 10 ^ 18 / 3 < TWO96 ∧
    ∃ s, calculate_price_ratio 1 3 0 0 = some s ∧
      (format_u256_division_fallback 1 3 0 0 = some s ∨
        format_u256_division_fallback 1 3 0 0 = some (s ++ ".0")) :=
  ⟨by decide,
    price_ratio_paths_agree_small_scale_diff 1 3 0 0 (by decide) (by decide)
      (by decide) (by decide) (by decide) (by decide) (by decide)⟩
